import Mathlib

/-!
# Verification of the geprotocol core

Shallow embedding of `src/geprotocol/geprotocol.py`: the two line parsers
`str_to_dict_dicom` and `str_to_dict_lx`, the payload extraction
`extract_protocol`, the comparison `diff_protocols`, and the `json`
subcommand flow of `main`.

Modelling conventions:
* Python `dict[str, str]` is an ordered association list `List (String × String)`
  whose keys are unique by construction; Python dict assignment `d[k] = v`
  (update keeps the key position, a new key is appended) is `dictInsert`.
* The regular expressions are modelled character-exactly for ASCII input:
  `\w` is letters, digits and underscore, `\s` is the ASCII whitespace
  characters.  Both patterns are deterministic (word and whitespace
  characters are disjoint, so regex backtracking can never produce a match
  that the greedy-then-check reading misses).
* `str.splitlines` is modelled for texts whose only line-boundary character
  is the newline character; Python additionally breaks on several other
  control characters, and the universally quantified theorems restrict
  their inputs accordingly.
* Bytes are `Nat`, a DICOM dataset is an association list from
  (group, element) tag pairs to raw byte strings, and the external
  `gzip.decompress(...).decode()` collaborator is a parameter
  `List Nat → Option String` of the functions that call it.
* Code that raises an unhandled Python exception is modelled as `none`
  (for the parsers) or as an explicit `crashed` result (for extraction).
-/

/-- Models Python regex `\w` for ASCII: letter, digit or underscore. -/
def isWordChar (c : Char) : Bool :=
  c.isAlpha || c.isDigit || c = '_'

/-- Models Python regex `\s` for ASCII: space, tab, newline, carriage
return, vertical tab or form feed. -/
def isSpaceChar (c : Char) : Bool :=
  c = ' ' || c = '\t' || c = '\n' || c = '\x0d' || c = '\x0b' || c = '\x0c'

/-- The prefix of a line split: prepend a character to the first piece. -/
def consHead (c : Char) : List (List Char) → List (List Char)
  | [] => [[c]]
  | l :: ls => (c :: l) :: ls

/-- Split a character list at every newline character; the result always has
one more piece than there are newlines. -/
def splitOnNl : List Char → List (List Char)
  | [] => [[]]
  | c :: rest =>
    if c = '\n' then [] :: splitOnNl rest
    else consHead c (splitOnNl rest)

/-- Models Python `str.splitlines` for texts whose only line-boundary
character is the newline character: the empty string has no lines, and a
trailing newline does not open a final empty line. -/
def splitlines (s : String) : List String :=
  if s.data = [] then []
  else if (splitOnNl s.data).getLast? = some [] then
    ((splitOnNl s.data).dropLast).map String.mk
  else (splitOnNl s.data).map String.mk

/-- The quoted-value part `"(.*?)"` of both regexes, at the position right
after the single whitespace character: an opening quote, then the
non-greedy `(.*?)"` takes the characters up to the first following quote
(failing if a newline or the end of the line comes first). -/
def reMatchQuoted : List Char → Option String
  | [] => none
  | q :: rest =>
    if q = '"' then
      match rest.dropWhile (fun c => !(c = '"' || c = '\n')) with
      | [] => none
      | q2 :: _ =>
        if q2 = '"' then some (String.mk (rest.takeWhile (fun c => !(c = '"' || c = '\n'))))
        else none
    else none

/-- Models `re.match(r'(\w+)\s"(.*?)"', line)` on the characters of one
line: a nonempty maximal run of word characters, one whitespace character,
then the quoted value.  Word and whitespace characters are disjoint, so
the greedy run plus single checks is exactly the regex's backtracking
search. -/
def reMatchNameValue (cs : List Char) : Option (String × String) :=
  if cs.takeWhile isWordChar = [] then none
  else
    match cs.dropWhile isWordChar with
    | [] => none
    | w :: rest =>
      if isSpaceChar w then
        (reMatchQuoted rest).map (fun v => (String.mk (cs.takeWhile isWordChar), v))
      else none

/-- The per-line match of `str_to_dict_dicom`:
`re.match(r'(\w+)\s"(.*?)"', line)`. -/
def reMatchDicom (cs : List Char) : Option (String × String) :=
  reMatchNameValue cs

/-- The per-line match of `str_to_dict_lx`:
`re.match(r'\s\s\s\sset\s(\w+)\s"(.*?)"', line)`: four whitespace
characters, the literal `set`, one whitespace character, then the same
name/value pattern as the DICOM dialect. -/
def reMatchLx (cs : List Char) : Option (String × String) :=
  match cs with
  | w1 :: w2 :: w3 :: w4 :: c1 :: c2 :: c3 :: w5 :: rest =>
    if isSpaceChar w1 && isSpaceChar w2 && isSpaceChar w3 && isSpaceChar w4
        && (c1 = 's' : Bool) && (c2 = 'e' : Bool) && (c3 = 't' : Bool)
        && isSpaceChar w5 then
      reMatchNameValue rest
    else none
  | _ => none

/-- Models Python dict assignment `d[k] = v` on an ordered association
list with unique keys: an existing key keeps its position and gets the new
value, a new key is appended at the end. -/
def dictInsert (d : List (String × String)) (k v : String) : List (String × String) :=
  match d with
  | [] => [(k, v)]
  | p :: rest => if p.1 = k then (k, v) :: rest else p :: dictInsert rest k v

/-- Models Python dict lookup `d[k]` (as an `Option`, which also models the
membership test `k in d`). -/
def dictLookup (k : String) (d : List (String × String)) : Option String :=
  match d with
  | [] => none
  | p :: rest => if p.1 = k then some p.2 else dictLookup k rest

/-- The shared loop body of both parsers: for each line, match the dialect
pattern and assign `d[m.group(1)] = m.group(2)`.  A line that does not
match makes Python dereference `None` (an `AttributeError`), modelled as
`none`. -/
def dict_build_go (f : List Char → Option (String × String))
    (d : List (String × String)) : List String → Option (List (String × String))
  | [] => some d
  | line :: rest =>
    match f line.data with
    | none => none
    | some kv => dict_build_go f (dictInsert d kv.1 kv.2) rest

/-- Models `str_to_dict_dicom` (geprotocol.py lines 19-40): split the text
into lines, match each against `(\w+)\s"(.*?)"` and build the dict. -/
def str_to_dict_dicom (s : String) : Option (List (String × String)) :=
  dict_build_go reMatchDicom [] (splitlines s)

/-- Models `str_to_dict_lx` (geprotocol.py lines 43-64): split the text
into lines, match each against `\s\s\s\sset\s(\w+)\s"(.*?)"` and build the
dict. -/
def str_to_dict_lx (s : String) : Option (List (String × String)) :=
  dict_build_go reMatchLx [] (splitlines s)

/-- Models `diff_protocols` (geprotocol.py lines 88-113) as the list of
lines it prints to stdout.  First pass: every reference item is either
equal in the test dict (nothing printed), changed (three lines with both
values), or missing from the test dict (three lines with a bare second
line).  Second pass: test items missing from the reference dict (three
lines with a bare first line).  `print("<", k, v)` prints the arguments
separated by single spaces. -/
def diff_protocols (r t : List (String × String)) : List String :=
  (r.foldl (fun out kv =>
    match dictLookup kv.1 t with
    | some w =>
      if kv.2 ≠ w then
        out ++ ["< " ++ kv.1 ++ " " ++ kv.2, "> " ++ kv.1 ++ " " ++ w, "---"]
      else out
    | none => out ++ ["< " ++ kv.1 ++ " " ++ kv.2, ">", "---"]) [])
  ++ (t.foldl (fun out kv =>
    match dictLookup kv.1 r with
    | some _ => out
    | none => out ++ ["<", "> " ++ kv.1 ++ " " ++ kv.2, "---"]) [])

/-- The result of `extract_protocol`: a normal return, a `sys.exit` with an
exit code and the stderr line written just before it, or an unhandled
Python exception (gzip / decode failure, or a parser `AttributeError`). -/
inductive ExtractResult where
  | ok (d : List (String × String))
  | exited (code : Nat) (stderrLine : String)
  | crashed
deriving DecidableEq

/-- The stderr message of the missing-tag error path. -/
def missingElementMsg : String :=
  "DICOM file does not contain private element (0025,101b), exiting"

/-- Lookup of a tag's raw byte value in a DICOM dataset, modelled as an
association list from (group, element) pairs to byte strings; `none` also
models the dataset membership test `[0x25, 0x101B] not in ds`. -/
def dsLookup (ds : List ((Nat × Nat) × List Nat)) (tag : Nat × Nat) : Option (List Nat) :=
  match ds with
  | [] => none
  | e :: rest => if e.1 = tag then some e.2 else dsLookup rest tag

/-- Models `gzip.decompress(raw[4:]).decode()` (geprotocol.py line 83):
the first four bytes of the raw payload are discarded without inspection
and the rest is handed to the external decompress-and-decode collaborator
`dd`, which yields `none` on a gzip or UTF-8 failure. -/
def decode_payload (dd : List Nat → Option String) (raw : List Nat) : Option String :=
  dd (raw.drop 4)

/-- Models `extract_protocol` (geprotocol.py lines 67-85): if element
(0025,101b) is absent, write the error message to stderr and
`sys.exit(1)`; otherwise decode the payload and parse it with
`str_to_dict_dicom`.  The external `gzip.decompress(...).decode()` is the
parameter `dd`. -/
def extract_protocol (dd : List Nat → Option String)
    (ds : List ((Nat × Nat) × List Nat)) : ExtractResult :=
  match dsLookup ds (0x25, 0x101b) with
  | none => ExtractResult.exited 1 missingElementMsg
  | some protocol_raw =>
    match decode_payload dd protocol_raw with
    | none => ExtractResult.crashed
    | some protocol_decoded =>
      match str_to_dict_dicom protocol_decoded with
      | none => ExtractResult.crashed
      | some d => ExtractResult.ok d

/-- A minimal escaping model of `json.dump` for string data: quote,
backslash and the common control characters. -/
def jsonEscape (s : String) : String :=
  String.mk (s.data.foldr (fun c acc =>
    match c with
    | '"' => '\\' :: '"' :: acc
    | '\\' => '\\' :: '\\' :: acc
    | '\n' => '\\' :: 'n' :: acc
    | '\t' => '\\' :: 't' :: acc
    | '\x0d' => '\\' :: 'r' :: acc
    | c => c :: acc) [])

/-- Models `json.dump(d, f, indent=0)` on a flat string-to-string dict. -/
def jsonDump (d : List (String × String)) : String :=
  match d with
  | [] => "\x7b\x7d"
  | _ =>
    "\x7b\n" ++ String.intercalate ",\n"
      (d.map (fun kv => "\"" ++ jsonEscape kv.1 ++ "\": \"" ++ jsonEscape kv.2 ++ "\"")) ++ "\n\x7d"

/-- The observable outcome of one run of the `json` subcommand: the
process exit code, the specific stderr line written by the program itself
(`none` when the program wrote no such line, e.g. an unhandled-exception
traceback), whether the output file exists when the process ends, and its
content. -/
structure JsonRun where
  exitCode : Nat
  stderrLine : Option String
  outFileCreated : Bool
  outFileContent : String
deriving DecidableEq

/-- Models the `json` branch of `main` (geprotocol.py lines 168-171):
`with open(args.j, "w") as f: json.dump(extract_protocol(ds), f, indent=0)`.
The `open(args.j, "w")` creates (or truncates) the output file when the
`with` statement is entered, BEFORE `extract_protocol(ds)` is evaluated
inside the `json.dump` call, so the output file exists - empty - on every
path, including the missing-tag `sys.exit(1)` path and a crash. -/
def json_subcommand (dd : List Nat → Option String)
    (ds : List ((Nat × Nat) × List Nat)) : JsonRun :=
  match extract_protocol dd ds with
  | ExtractResult.exited code msg =>
    { exitCode := code, stderrLine := some msg, outFileCreated := true, outFileContent := "" }
  | ExtractResult.crashed =>
    { exitCode := 1, stderrLine := none, outFileCreated := true, outFileContent := "" }
  | ExtractResult.ok d =>
    { exitCode := 0, stderrLine := none, outFileCreated := true, outFileContent := jsonDump d }

/-- A diff record, following the spec's description: a changed key with
both values, a key removed from the test mapping, or a key added by the
test mapping. -/
inductive DiffRec where
  | changed (k vRef vTest : String)
  | removed (k vRef : String)
  | added (k vTest : String)
deriving DecidableEq

/-- Modelled from the spec: the lines `diff_protocols` prints for one
record (key on both sides when changed, only on the present side when
removed or added, then the `---` separator). -/
def renderRec : DiffRec → List String
  | DiffRec.changed k a b => ["< " ++ k ++ " " ++ a, "> " ++ k ++ " " ++ b, "---"]
  | DiffRec.removed k a => ["< " ++ k ++ " " ++ a, ">", "---"]
  | DiffRec.added k b => ["<", "> " ++ k ++ " " ++ b, "---"]

/-- Modelled from the spec's words (claim C1): the reference-driven record
for one reference item - a changed record when the key is present in the
test mapping with a different value, a removed record when it is absent,
nothing when present and equal. -/
def refRecSpec (t : List (String × String)) (kv : String × String) : Option DiffRec :=
  match dictLookup kv.1 t with
  | some w => if kv.2 ≠ w then some (DiffRec.changed kv.1 kv.2 w) else none
  | none => some (DiffRec.removed kv.1 kv.2)

/-- Modelled from the spec's words (claim C1): the added record for one
test item - emitted exactly when its key is absent from the reference
mapping. -/
def addRecSpec (r : List (String × String)) (kv : String × String) : Option DiffRec :=
  match dictLookup kv.1 r with
  | some _ => none
  | none => some (DiffRec.added kv.1 kv.2)

/-- Modelled from the spec's words (claim C1): all reference-driven
records in reference insertion order, then all added records in test
insertion order. -/
def diffRecordsSpec (r t : List (String × String)) : List DiffRec :=
  r.filterMap (refRecSpec t) ++ t.filterMap (addRecSpec r)

/-- Concatenation of the pieces produced per element; the shape of each
`diff_protocols` printing pass. -/
def catMap (f : α → List β) : List α → List β
  | [] => []
  | a :: l => f a ++ catMap f l

/-- The lines the first `diff_protocols` pass prints for one reference
item. -/
def refRecLines (t : List (String × String)) (kv : String × String) : List String :=
  match dictLookup kv.1 t with
  | some w =>
    if kv.2 ≠ w then ["< " ++ kv.1 ++ " " ++ kv.2, "> " ++ kv.1 ++ " " ++ w, "---"]
    else []
  | none => ["< " ++ kv.1 ++ " " ++ kv.2, ">", "---"]

/-- The lines the second `diff_protocols` pass prints for one test
item. -/
def addRecLines (r : List (String × String)) (kv : String × String) : List String :=
  match dictLookup kv.1 r with
  | some _ => []
  | none => ["<", "> " ++ kv.1 ++ " " ++ kv.2, "---"]

/-- The value predicate of `(.*?)"`: the non-greedy run stops at the first
quote and cannot cross a newline. -/
def isValueStop (c : Char) : Bool := c = '"' || c = '\n'

/-- Join lines with single newline separators; the blobs the quantified
parser claims range over. -/
def joinNl : List (List Char) → List Char
  | [] => []
  | [l] => l
  | l :: ls => l ++ '\n' :: joinNl ls

/-- Building a dict from a pair list: the fold both parsers perform. -/
def buildDict (acc : List (String × String)) (ps : List (String × String)) :
    List (String × String) :=
  ps.foldl (fun d kv => dictInsert d kv.1 kv.2) acc

/-- Modelled from the spec (claim C6): keys in first-occurrence order. -/
def firstOccKeys : List (String × String) → List String
  | [] => []
  | kv :: rest => kv.1 :: (firstOccKeys rest).filter (fun k => decide (k ≠ kv.1))

/-- Modelled from the spec (claim C6): the value of the last occurrence of
a key in a pair list. -/
def lastValue (k : String) : List (String × String) → Option String
  | [] => none
  | kv :: rest =>
    match lastValue k rest with
    | some w => some w
    | none => if kv.1 = k then some kv.2 else none

/-- Matching every line of a text against a dialect pattern; `none` as
soon as one line fails. -/
def matchLines (f : List Char → Option (String × String)) :
    List String → Option (List (String × String))
  | [] => some []
  | line :: rest =>
    match f line.data, matchLines f rest with
    | some kv, some ps => some (kv :: ps)
    | _, _ => none

/-- The blank separator characters: the regex-whitespace characters that
Python `str.splitlines` does not treat as line boundaries. -/
abbrev isBlank (c : Char) : Prop := c = ' ' ∨ c = '\t'

/-- The characters at which Python `str.splitlines` breaks a line. -/
def isLineBoundary (c : Char) : Bool :=
  c = '\n' || c = '\x0d' || c = '\x0b' || c = '\x0c' || c = '\x1c' ||
    c = '\x1d' || c = '\x1e' || c = '\x85' || c = '\u2028' || c = '\u2029'

/-- A valid parameter name: nonempty, all word characters. -/
abbrev validName (n : String) : Prop :=
  n.data ≠ [] ∧ ∀ c ∈ n.data, isWordChar c = true

/-- A valid parameter value: no double quote and no character that Python
line-splitting would break at (so the line stays one line). -/
abbrev validValue (v : String) : Prop :=
  ∀ c ∈ v.data, ¬c = '"' ∧ isLineBoundary c = false

/-- The characters of one Dialect-A line `NAME "VALUE"`: the name, one
separator whitespace character, and the double-quoted value. -/
def renderDicomLine (x : String × Char × String) : List Char :=
  x.1.data ++ (x.2.1 :: '"' :: (x.2.2.data ++ ('"' :: [])))

/-- A Dialect-A text blob: the rendered lines joined by newlines. -/
def renderDicomBlob (ts : List (String × Char × String)) : String :=
  String.mk (joinNl (ts.map renderDicomLine))

/-- One Dialect-B line: four leading whitespace characters, the literal
token `set`, whitespace, a name, whitespace, and a double-quoted value. -/
structure LxLine where
  w1 : Char
  w2 : Char
  w3 : Char
  w4 : Char
  w5 : Char
  name : String
  w6 : Char
  value : String

/-- The characters of one Dialect-B line. -/
def renderLxLine (x : LxLine) : List Char :=
  x.w1 :: x.w2 :: x.w3 :: x.w4 :: 's' :: 'e' :: 't' :: x.w5 ::
    (x.name.data ++ (x.w6 :: '"' :: (x.value.data ++ ('"' :: []))))

/-- A Dialect-B text blob: the rendered lines joined by newlines. -/
def renderLxBlob (xs : List LxLine) : String :=
  String.mk (joinNl (xs.map renderLxLine))

/-!
## Theorems
-/

example : str_to_dict_dicom "ABC \"123\"\nDEF \"456\"" =
    some [("ABC", "123"), ("DEF", "456")] := by decide

example : str_to_dict_dicom "ABC_DEF \"123 456\"\nDEF \"456 aef\"" =
    some [("ABC_DEF", "123 456"), ("DEF", "456 aef")] := by decide

example : str_to_dict_lx "    set ABC \"123\"\n    set DEF \"456\"" =
    some [("ABC", "123"), ("DEF", "456")] := by decide

example : str_to_dict_dicom "ABC \"123\"\n\nDEF \"456\"" = none := by decide

example : diff_protocols [("1", "A"), ("2", "B"), ("3", "C")] [("1", "A"), ("2", "B"), ("3", "C")] = [] := by decide

example : diff_protocols [("1", "A"), ("2", "B"), ("3", "C")] [("1", "AB"), ("2", "BC"), ("4", "F")] =
    ["< 1 A", "> 1 AB", "---", "< 2 B", "> 2 BC", "---", "< 3 C", ">", "---", "<", "> 4 F", "---"] := by decide

example :
    json_subcommand (fun _ => none) [((0x25, 0x10), [1, 2])] =
      { exitCode := 1, stderrLine := some missingElementMsg,
        outFileCreated := true, outFileContent := "" } := by decide

theorem catMap_nil (f : α → List β) : catMap f [] = [] := rfl

theorem catMap_cons (f : α → List β) (a : α) (l : List α) :
    catMap f (a :: l) = f a ++ catMap f l := rfl

theorem catMap_eq_nil_iff (f : α → List β) (l : List α) :
    catMap f l = [] ↔ ∀ a ∈ l, f a = [] := by
  induction l with
  | nil => simp [catMap]
  | cons a l ih => simp [catMap, List.append_eq_nil, ih]

theorem diff_foldl_ref (t : List (String × String)) :
    ∀ (r : List (String × String)) (acc : List String),
      (r.foldl (fun out kv =>
        match dictLookup kv.1 t with
        | some w =>
          if kv.2 ≠ w then
            out ++ ["< " ++ kv.1 ++ " " ++ kv.2, "> " ++ kv.1 ++ " " ++ w, "---"]
          else out
        | none => out ++ ["< " ++ kv.1 ++ " " ++ kv.2, ">", "---"]) acc) =
      acc ++ catMap (refRecLines t) r := by
  intro r
  induction r with
  | nil => intro acc; simp [catMap]
  | cons kv r ih =>
    intro acc
    rw [List.foldl_cons, catMap_cons, ih]
    have hstep : (match dictLookup kv.1 t with
        | some w =>
          if kv.2 ≠ w then
            acc ++ ["< " ++ kv.1 ++ " " ++ kv.2, "> " ++ kv.1 ++ " " ++ w, "---"]
          else acc
        | none => acc ++ ["< " ++ kv.1 ++ " " ++ kv.2, ">", "---"]) =
        acc ++ refRecLines t kv := by
      unfold refRecLines
      cases dictLookup kv.1 t with
      | none => rfl
      | some w => by_cases h : kv.2 = w <;> simp [h]
    rw [hstep, List.append_assoc]

theorem diff_foldl_add (r : List (String × String)) :
    ∀ (t : List (String × String)) (acc : List String),
      (t.foldl (fun out kv =>
        match dictLookup kv.1 r with
        | some _ => out
        | none => out ++ ["<", "> " ++ kv.1 ++ " " ++ kv.2, "---"]) acc) =
      acc ++ catMap (addRecLines r) t := by
  intro t
  induction t with
  | nil => intro acc; simp [catMap]
  | cons kv t ih =>
    intro acc
    rw [List.foldl_cons, catMap_cons, ih]
    have hstep : (match dictLookup kv.1 r with
        | some _ => acc
        | none => acc ++ ["<", "> " ++ kv.1 ++ " " ++ kv.2, "---"]) =
        acc ++ addRecLines r kv := by
      unfold addRecLines
      cases dictLookup kv.1 r with
      | none => rfl
      | some w => simp
    rw [hstep, List.append_assoc]

/-- The two printing passes of `diff_protocols`, decomposed per item. -/
theorem diff_protocols_eq_catMap (r t : List (String × String)) :
    diff_protocols r t = catMap (refRecLines t) r ++ catMap (addRecLines r) t := by
  unfold diff_protocols
  rw [diff_foldl_ref, diff_foldl_add, List.nil_append, List.nil_append]

theorem dictLookup_mem (k v : String) (d : List (String × String))
    (h : dictLookup k d = some v) : (k, v) ∈ d := by
  induction d with
  | nil => simp [dictLookup] at h
  | cons p rest ih =>
    unfold dictLookup at h
    by_cases hp : p.1 = k
    · simp [hp] at h
      have hp2 : p = (k, v) := by cases p; simp_all
      rw [hp2]
      exact List.mem_cons_self _ _
    · simp [hp] at h
      exact List.mem_cons_of_mem _ (ih h)

theorem dictLookup_eq_some_of_nodup (k v : String) (d : List (String × String))
    (hnd : (d.map (fun p => p.1)).Nodup) (h : (k, v) ∈ d) :
    dictLookup k d = some v := by
  induction d with
  | nil => simp at h
  | cons p rest ih =>
    simp only [List.map_cons, List.nodup_cons] at hnd
    rcases List.mem_cons.mp h with h1 | h1
    · subst h1
      simp [dictLookup]
    · have hpk : p.1 ≠ k := by
        intro hk
        exact hnd.1 (hk ▸ (List.mem_map.mpr ⟨(k, v), h1, rfl⟩))
      simp [dictLookup, hpk]
      exact ih hnd.2 h1

theorem dictLookup_eq_none_iff (k : String) (d : List (String × String)) :
    dictLookup k d = none ↔ k ∉ d.map (fun p => p.1) := by
  induction d with
  | nil => simp [dictLookup]
  | cons p rest ih =>
    unfold dictLookup
    by_cases hp : p.1 = k
    · simp [hp]
    · rw [if_neg hp, ih, List.map_cons]
      constructor
      · intro h hk
        rcases List.mem_cons.mp hk with h1 | h1
        · exact hp h1.symm
        · exact h h1
      · intro h hk
        exact h (List.mem_cons_of_mem _ hk)

theorem dictLookup_isSome_iff (k : String) (d : List (String × String)) :
    (∃ w, dictLookup k d = some w) ↔ k ∈ d.map (fun p => p.1) := by
  constructor
  · intro ⟨w, hw⟩
    by_contra hk
    rw [← dictLookup_eq_none_iff] at hk
    rw [hk] at hw
    exact Option.noConfusion hw
  · intro hk
    cases h : dictLookup k d with
    | none => exact absurd ((dictLookup_eq_none_iff k d).mp h) (by simpa using hk)
    | some w => exact ⟨w, rfl⟩

theorem refRecLines_eq_nil_iff (t : List (String × String)) (kv : String × String) :
    refRecLines t kv = [] ↔ dictLookup kv.1 t = some kv.2 := by
  unfold refRecLines
  cases h : dictLookup kv.1 t with
  | none => simp
  | some w =>
    by_cases hv : kv.2 = w <;> simp [hv]
    exact fun hc => absurd hc.symm hv

theorem addRecLines_eq_nil_iff (r : List (String × String)) (kv : String × String) :
    addRecLines r kv = [] ↔ dictLookup kv.1 r ≠ none := by
  unfold addRecLines
  cases h : dictLookup kv.1 r <;> simp

/-- Word characters and whitespace characters are disjoint, so the
greedy-run model of `(\w+)\s` is exact. -/
theorem not_word_of_space (c : Char) (h : isSpaceChar c = true) : isWordChar c = false := by
  unfold isSpaceChar at h
  simp only [Bool.or_eq_true, decide_eq_true_eq] at h
  rcases h with ((((h | h) | h) | h) | h) | h <;> subst h <;> decide

theorem takeWhile_append_all (p : Char → Bool) (l1 : List Char) :
    ∀ l2 : List Char, (∀ c ∈ l1, p c = true) →
      (l1 ++ l2).takeWhile p = l1 ++ l2.takeWhile p := by
  induction l1 with
  | nil => intro l2 _; rfl
  | cons c l1 ih =>
    intro l2 h
    have hc : p c = true := h c (List.mem_cons_self _ _)
    simp only [List.cons_append, List.takeWhile_cons, hc, if_true]
    rw [ih l2 (fun d hd => h d (List.mem_cons_of_mem _ hd))]

theorem dropWhile_append_all (p : Char → Bool) (l1 : List Char) :
    ∀ l2 : List Char, (∀ c ∈ l1, p c = true) →
      (l1 ++ l2).dropWhile p = l2.dropWhile p := by
  induction l1 with
  | nil => intro l2 _; rfl
  | cons c l1 ih =>
    intro l2 h
    have hc : p c = true := h c (List.mem_cons_self _ _)
    simp only [List.cons_append, List.dropWhile_cons, hc, if_true]
    exact ih l2 (fun d hd => h d (List.mem_cons_of_mem _ hd))

theorem takeWhile_cons_neg (p : Char → Bool) (c : Char) (l : List Char)
    (h : p c = false) : (c :: l).takeWhile p = [] := by
  simp [List.takeWhile_cons, h]

theorem dropWhile_cons_neg (p : Char → Bool) (c : Char) (l : List Char)
    (h : p c = false) : (c :: l).dropWhile p = c :: l := by
  simp [List.dropWhile_cons, h]

/-- The quoted-value pattern on an opening quote, a quote-and-newline-free
value, a closing quote and arbitrary trailing characters takes exactly the
value: the non-greedy run stops at the first quote. -/
theorem reMatchQuoted_spec (v rest : List Char)
    (hv : ∀ c ∈ v, isValueStop c = false) :
    reMatchQuoted ('"' :: (v ++ ('"' :: rest))) = some (String.mk v) := by
  have hvq : ∀ c ∈ v, (!(c = '"' || c = '\n')) = true := by
    intro c hc
    have h := hv c hc
    unfold isValueStop at h
    simp only [Bool.not_eq_eq_eq_not, Bool.not_true]
    exact h
  have hstop : (fun c => !(c = '"' || c = '\n')) '"' = false := by decide
  have htakev : (v ++ ('"' :: rest)).takeWhile (fun c => !(c = '"' || c = '\n')) = v := by
    rw [takeWhile_append_all _ v ('"' :: rest) hvq, takeWhile_cons_neg _ '"' _ hstop,
      List.append_nil]
  have hdropv : (v ++ ('"' :: rest)).dropWhile (fun c => !(c = '"' || c = '\n')) =
      '"' :: rest := by
    rw [dropWhile_append_all _ v ('"' :: rest) hvq, dropWhile_cons_neg _ '"' _ hstop]
  unfold reMatchQuoted
  dsimp only
  rw [if_pos rfl, hdropv, htakev]
  dsimp only
  rw [if_pos rfl]

/-- The regex `(\w+)\s"(.*?)"` on a line made of a nonempty word-character
name, one whitespace character, and a quoted value free of quotes and
newlines, matches the name and the value - whatever follows the closing
quote. -/
theorem reMatchNameValue_spec (n : List Char) (w : Char) (v rest : List Char)
    (hn : n ≠ []) (hnw : ∀ c ∈ n, isWordChar c = true)
    (hw : isSpaceChar w = true)
    (hv : ∀ c ∈ v, isValueStop c = false) :
    reMatchNameValue (n ++ (w :: '"' :: (v ++ ('"' :: rest)))) =
      some (String.mk n, String.mk v) := by
  have hwword : isWordChar w = false := not_word_of_space w hw
  have htake : (n ++ (w :: '"' :: (v ++ ('"' :: rest)))).takeWhile isWordChar = n := by
    rw [takeWhile_append_all isWordChar n (w :: '"' :: (v ++ ('"' :: rest))) hnw,
      takeWhile_cons_neg isWordChar w _ hwword, List.append_nil]
  have hdrop : (n ++ (w :: '"' :: (v ++ ('"' :: rest)))).dropWhile isWordChar =
      w :: '"' :: (v ++ ('"' :: rest)) := by
    rw [dropWhile_append_all isWordChar n (w :: '"' :: (v ++ ('"' :: rest))) hnw,
      dropWhile_cons_neg isWordChar w _ hwword]
  rw [reMatchNameValue, htake, hdrop, if_neg hn]
  dsimp only
  rw [if_pos hw, reMatchQuoted_spec v rest hv]
  rfl

/-- The Dialect-B regex on a line with four leading whitespace characters,
the literal `set`, a whitespace character, and then a name/value pattern
line, matches that name and value. -/
theorem reMatchLx_spec (w1 w2 w3 w4 w5 : Char) (n : List Char) (w6 : Char)
    (v rest : List Char)
    (hw1 : isSpaceChar w1 = true) (hw2 : isSpaceChar w2 = true)
    (hw3 : isSpaceChar w3 = true) (hw4 : isSpaceChar w4 = true)
    (hw5 : isSpaceChar w5 = true)
    (hn : n ≠ []) (hnw : ∀ c ∈ n, isWordChar c = true)
    (hw6 : isSpaceChar w6 = true)
    (hv : ∀ c ∈ v, isValueStop c = false) :
    reMatchLx (w1 :: w2 :: w3 :: w4 :: 's' :: 'e' :: 't' :: w5 ::
        (n ++ (w6 :: '"' :: (v ++ ('"' :: rest))))) = some (String.mk n, String.mk v) := by
  rw [reMatchLx]
  rw [if_pos (by rw [hw1, hw2, hw3, hw4, hw5]; rfl)]
  exact reMatchNameValue_spec n w6 v rest hn hnw hw6 hv

theorem splitOnNl_no_nl (l : List Char) (h : '\n' ∉ l) : splitOnNl l = [l] := by
  induction l with
  | nil => rfl
  | cons c l ih =>
    have hc : ¬c = '\n' := fun hc => h (hc ▸ List.mem_cons_self _ _)
    rw [splitOnNl, if_neg hc, ih (fun hm => h (List.mem_cons_of_mem _ hm))]
    rfl

theorem splitOnNl_append_nl (l : List Char) :
    ∀ cs : List Char, '\n' ∉ l → splitOnNl (l ++ '\n' :: cs) = l :: splitOnNl cs := by
  induction l with
  | nil => intro cs _; rw [List.nil_append, splitOnNl, if_pos rfl]
  | cons c l ih =>
    intro cs h
    have hc : ¬c = '\n' := fun hc => h (hc ▸ List.mem_cons_self _ _)
    rw [List.cons_append, splitOnNl, if_neg hc,
      ih cs (fun hm => h (List.mem_cons_of_mem _ hm))]
    rfl

theorem splitOnNl_joinNl : ∀ ls : List (List Char), ls ≠ [] →
    (∀ l ∈ ls, '\n' ∉ l) → splitOnNl (joinNl ls) = ls := by
  intro ls
  induction ls with
  | nil => intro h; exact absurd rfl h
  | cons l ls ih =>
    intro _ hnl
    cases ls with
    | nil => exact splitOnNl_no_nl l (hnl l (List.mem_cons_self _ _))
    | cons l2 ls2 =>
      rw [joinNl, splitOnNl_append_nl l _ (hnl l (List.mem_cons_self _ _)),
        ih (by simp) (fun m hm => hnl m (List.mem_cons_of_mem _ hm))]
      exact fun h => List.noConfusion h

theorem joinNl_ne_nil (ls : List (List Char)) (hne : ls ≠ [])
    (hnil : ∀ l ∈ ls, l ≠ []) : joinNl ls ≠ [] := by
  cases ls with
  | nil => exact absurd rfl hne
  | cons l ls =>
    cases ls with
    | nil => exact hnil l (List.mem_cons_self _ _)
    | cons l2 ls2 =>
      rw [joinNl]
      · intro h
        rcases List.append_eq_nil.mp h with ⟨_, h2⟩
        exact List.cons_ne_nil _ _ h2
      · exact fun h => List.noConfusion h

theorem mem_of_getLast?_eq :
    ∀ (ls : List (List Char)) (a : List Char), ls.getLast? = some a → a ∈ ls
  | [], _, h => by simp at h
  | [l], a, h => by
    simp only [List.getLast?_singleton, Option.some.injEq] at h
    exact h ▸ List.mem_cons_self _ _
  | l :: l2 :: ls, a, h => by
    rw [List.getLast?_cons_cons] at h
    exact List.mem_cons_of_mem _ (mem_of_getLast?_eq (l2 :: ls) a h)

theorem getLast?_ne_of_all_ne (ls : List (List Char))
    (hnil : ∀ l ∈ ls, l ≠ []) : ls.getLast? ≠ some [] := by
  cases hl : ls.getLast? with
  | none => simp
  | some a =>
    have ha : a ∈ ls := mem_of_getLast?_eq ls a hl
    intro hc
    have h2 : a = [] := by injection hc
    exact hnil a ha h2

/-- `splitlines` on a blob of nonempty newline-free lines joined by single
newlines recovers exactly those lines. -/
theorem splitlines_joinNl (ls : List (List Char)) (hne : ls ≠ [])
    (hnil : ∀ l ∈ ls, l ≠ []) (hnl : ∀ l ∈ ls, '\n' ∉ l) :
    splitlines (String.mk (joinNl ls)) = ls.map String.mk := by
  unfold splitlines
  dsimp only
  rw [splitOnNl_joinNl ls hne hnl, if_neg (joinNl_ne_nil ls hne hnil),
    if_neg (getLast?_ne_of_all_ne ls hnil)]

theorem splitlines_empty : splitlines "" = [] := rfl

theorem dictLookup_insert (d : List (String × String)) (k v k2 : String) :
    dictLookup k2 (dictInsert d k v) = if k = k2 then some v else dictLookup k2 d := by
  induction d with
  | nil => rfl
  | cons p rest ih =>
    rw [dictInsert]
    by_cases hp : p.1 = k
    · rw [if_pos hp, dictLookup]
      by_cases hk : k = k2
      · simp [hk]
      · rw [if_neg (by simpa using hk), if_neg hk, dictLookup, if_neg (by rw [hp]; exact hk)]
    · rw [if_neg hp, dictLookup]
      by_cases hp2 : p.1 = k2
      · have hk : ¬k = k2 := fun hk => hp (hk ▸ hp2)
        simp [hp2, hk, dictLookup]
      · rw [if_neg hp2, ih]
        by_cases hk : k = k2
        · simp [hk]
        · simp [hk, dictLookup, hp2]

theorem dictInsert_keys (d : List (String × String)) (k v : String) :
    (dictInsert d k v).map (fun p => p.1) =
      if k ∈ d.map (fun p => p.1) then d.map (fun p => p.1)
      else d.map (fun p => p.1) ++ [k] := by
  induction d with
  | nil => rfl
  | cons p rest ih =>
    rw [dictInsert]
    by_cases hp : p.1 = k
    · rw [if_pos hp]
      have hmem : k ∈ (p :: rest).map (fun p => p.1) := by
        rw [List.map_cons, hp]
        exact List.mem_cons_self _ _
      rw [if_pos hmem, List.map_cons, List.map_cons, hp]
    · rw [if_neg hp, List.map_cons, ih, List.map_cons]
      by_cases hk : k ∈ rest.map (fun p => p.1)
      · rw [if_pos hk, if_pos (List.mem_cons_of_mem _ hk)]
      · rw [if_neg hk, if_neg (by
          intro hc
          rcases List.mem_cons.mp hc with h1 | h1
          · exact hp h1.symm
          · exact hk h1)]
        rfl

theorem dictInsert_fresh (d : List (String × String)) (k v : String)
    (h : k ∉ d.map (fun p => p.1)) : dictInsert d k v = d ++ [(k, v)] := by
  induction d with
  | nil => rfl
  | cons p rest ih =>
    rw [dictInsert, if_neg (by
      intro hc
      exact h (by rw [List.map_cons, hc]; exact List.mem_cons_self _ _))]
    rw [ih (fun hm => h (by rw [List.map_cons]; exact List.mem_cons_of_mem _ hm))]
    rfl

/-- C3/C7 helper: folding all-fresh duplicate-free pairs into a dict
appends them in order. -/
theorem buildDict_fresh :
    ∀ (ps acc : List (String × String)),
      (ps.map (fun p => p.1)).Nodup →
      (∀ k ∈ ps.map (fun p => p.1), k ∉ acc.map (fun p => p.1)) →
      buildDict acc ps = acc ++ ps := by
  intro ps
  induction ps with
  | nil => intro acc _ _; simp [buildDict]
  | cons kv ps ih =>
    intro acc hnd hfresh
    rw [List.map_cons, List.nodup_cons] at hnd
    have hk : kv.1 ∉ acc.map (fun p => p.1) :=
      hfresh kv.1 (by rw [List.map_cons]; exact List.mem_cons_self _ _)
    rw [buildDict, List.foldl_cons, dictInsert_fresh acc kv.1 kv.2 hk]
    have hfresh2 : ∀ k ∈ ps.map (fun p => p.1),
        k ∉ (acc ++ [(kv.1, kv.2)]).map (fun p => p.1) := by
      intro k hkps hc
      rw [List.map_append] at hc
      rcases List.mem_append.mp hc with h1 | h1
      · exact hfresh k (by rw [List.map_cons]; exact List.mem_cons_of_mem _ hkps) h1
      · simp only [List.map_cons, List.map_nil, List.mem_singleton] at h1
        exact hnd.1 (h1 ▸ hkps)
    have := ih (acc ++ [(kv.1, kv.2)]) hnd.2 hfresh2
    rw [buildDict] at this
    rw [this, List.append_assoc]
    rfl

/-- C6 helper: looking up a key after the build fold finds the value of
its last occurrence among the folded pairs, else looks in the
accumulator. -/
theorem dictLookup_buildDict (k : String) :
    ∀ (ps acc : List (String × String)),
      dictLookup k (buildDict acc ps) =
        match lastValue k ps with
        | some w => some w
        | none => dictLookup k acc := by
  intro ps
  induction ps with
  | nil => intro acc; rfl
  | cons kv ps ih =>
    intro acc
    rw [buildDict, List.foldl_cons]
    have hstep := ih (dictInsert acc kv.1 kv.2)
    rw [buildDict] at hstep
    rw [hstep, lastValue]
    cases lastValue k ps with
    | some w => rfl
    | none =>
      rw [dictLookup_insert]
      by_cases hk : kv.1 = k
      · simp [hk]
      · simp [hk]

/-- C6 helper: the keys after the build fold are the accumulator keys
followed by the folded pairs' first-occurrence keys not already
present. -/
theorem buildDict_keys :
    ∀ (ps acc : List (String × String)),
      (buildDict acc ps).map (fun p => p.1) =
        acc.map (fun p => p.1) ++
          (firstOccKeys ps).filter (fun k => decide (k ∉ acc.map (fun p => p.1))) := by
  intro ps
  induction ps with
  | nil => intro acc; simp [buildDict, firstOccKeys]
  | cons kv ps ih =>
    intro acc
    rw [buildDict, List.foldl_cons]
    have hstep := ih (dictInsert acc kv.1 kv.2)
    rw [buildDict] at hstep
    rw [hstep, dictInsert_keys, firstOccKeys]
    by_cases hk : kv.1 ∈ acc.map (fun p => p.1)
    · rw [if_pos hk, List.filter_cons, if_neg (by simp [hk])]
      congr 1
      rw [List.filter_filter]
      apply List.filter_congr
      intro x _
      by_cases hx : x = kv.1
      · subst hx
        simp [hk]
      · simp [hx]
    · rw [if_neg hk, List.filter_cons, if_pos (by simp [hk])]
      rw [List.append_assoc]
      congr 1
      rw [List.singleton_append]
      congr 1
      rw [List.filter_filter]
      apply List.filter_congr
      intro x _
      by_cases hx : x = kv.1
      · subst hx
        simp
      · simp [hx, List.mem_append]

/-- The parser loop is: match every line, then fold the matched pairs into
the dict. -/
theorem dict_build_go_eq (f : List Char → Option (String × String)) :
    ∀ (lines : List String) (d : List (String × String)),
      dict_build_go f d lines = (matchLines f lines).map (fun ps => buildDict d ps) := by
  intro lines
  induction lines with
  | nil => intro d; rfl
  | cons line rest ih =>
    intro d
    rw [dict_build_go, matchLines]
    cases hf : f line.data with
    | none => rfl
    | some kv =>
      dsimp only
      rw [ih (dictInsert d kv.1 kv.2)]
      cases hm : matchLines f rest with
      | none => rfl
      | some ps =>
        simp only [Option.map, buildDict, List.foldl_cons]

/-- C9 helper: one unmatched line makes the whole parse fail. -/
theorem dict_build_go_none (f : List Char → Option (String × String)) :
    ∀ (lines : List String) (d : List (String × String)),
      (∃ l ∈ lines, f l.data = none) → dict_build_go f d lines = none := by
  intro lines
  induction lines with
  | nil => intro d h; simp at h
  | cons line rest ih =>
    intro d ⟨l, hl, hfl⟩
    rw [dict_build_go]
    cases hf : f line.data with
    | none => rfl
    | some kv =>
      dsimp only
      rcases List.mem_cons.mp hl with h1 | h1
      · rw [h1] at hfl
        rw [hf] at hfl
        exact Option.noConfusion hfl
      · exact ih (dictInsert d kv.1 kv.2) ⟨l, h1, hfl⟩

theorem forall₂_map_map {α β γ : Type} (g1 : α → β) (g2 : α → γ)
    (R : β → γ → Prop) (l : List α) (h : ∀ x ∈ l, R (g1 x) (g2 x)) :
    List.Forall₂ R (l.map g1) (l.map g2) := by
  induction l with
  | nil => exact List.Forall₂.nil
  | cons a l ih =>
    exact List.Forall₂.cons (h a (List.mem_cons_self _ _))
      (ih (fun x hx => h x (List.mem_cons_of_mem _ hx)))

/-- If every line matches its pair, `matchLines` returns exactly those
pairs. -/
theorem matchLines_of_forall₂ (f : List Char → Option (String × String)) :
    ∀ (lines : List String) (ps : List (String × String)),
      List.Forall₂ (fun (l : String) (kv : String × String) => f l.data = some kv) lines ps →
      matchLines f lines = some ps := by
  intro lines ps h
  induction h with
  | nil => rfl
  | cons hrel _ ih =>
    rw [matchLines, hrel, ih]

theorem isSpaceChar_of_blank (c : Char) (h : isBlank c) : isSpaceChar c = true := by
  rcases h with h | h <;> subst h <;> decide

theorem not_lineBoundary_of_blank (c : Char) (h : isBlank c) : isLineBoundary c = false := by
  rcases h with h | h <;> subst h <;> decide

theorem valueStop_of_validValue (v : String) (h : validValue v) :
    ∀ c ∈ v.data, isValueStop c = false := by
  intro c hc
  obtain ⟨hq, hb⟩ := h c hc
  unfold isValueStop
  unfold isLineBoundary at hb
  simp only [Bool.or_eq_false_iff, decide_eq_false_iff_not] at hb ⊢
  exact ⟨hq, hb.1.1.1.1.1.1.1.1.1⟩

theorem word_not_newline (c : Char) (h : isWordChar c = true) : ¬c = '\n' := by
  intro hc
  subst hc
  simp [isWordChar] at h

theorem append_cons_ne_nil (l1 : List Char) (c : Char) (l2 : List Char) :
    l1 ++ (c :: l2) ≠ [] := by
  intro h
  rcases List.append_eq_nil.mp h with ⟨_, h2⟩
  exact List.cons_ne_nil _ _ h2

theorem nl_not_mem_renderDicomLine (x : String × Char × String)
    (hn : validName x.1) (hw : isBlank x.2.1) (hv : validValue x.2.2) :
    '\n' ∉ renderDicomLine x := by
  intro hmem
  unfold renderDicomLine at hmem
  rcases List.mem_append.mp hmem with h | h
  · exact word_not_newline '\n' (hn.2 '\n' h) rfl
  · rcases List.mem_cons.mp h with h1 | h1
    · rcases hw with hb | hb <;> rw [hb] at h1 <;> exact absurd h1 (by decide)
    · rcases List.mem_cons.mp h1 with h2 | h2
      · exact absurd h2 (by decide)
      · rcases List.mem_append.mp h2 with h3 | h3
        · have h5 := (hv '\n' h3).2
          rw [isLineBoundary] at h5
          simp at h5
        · rcases List.mem_cons.mp h3 with h4 | h4
          · exact absurd h4 (by decide)
          · simp at h4

theorem nl_not_mem_renderLxLine (x : LxLine)
    (hw1 : isBlank x.w1) (hw2 : isBlank x.w2) (hw3 : isBlank x.w3)
    (hw4 : isBlank x.w4) (hw5 : isBlank x.w5)
    (hn : validName x.name) (hw6 : isBlank x.w6) (hv : validValue x.value) :
    '\n' ∉ renderLxLine x := by
  intro hmem
  unfold renderLxLine at hmem
  have hblank : ∀ c : Char, isBlank c → ¬('\n' = c) := by
    intro c hc he
    rcases hc with hb | hb <;> rw [hb] at he <;> exact absurd he (by decide)
  rcases List.mem_cons.mp hmem with h | h
  · exact hblank x.w1 hw1 h
  rcases List.mem_cons.mp h with h | h
  · exact hblank x.w2 hw2 h
  rcases List.mem_cons.mp h with h | h
  · exact hblank x.w3 hw3 h
  rcases List.mem_cons.mp h with h | h
  · exact hblank x.w4 hw4 h
  rcases List.mem_cons.mp h with h | h
  · exact absurd h (by decide)
  rcases List.mem_cons.mp h with h | h
  · exact absurd h (by decide)
  rcases List.mem_cons.mp h with h | h
  · exact absurd h (by decide)
  rcases List.mem_cons.mp h with h | h
  · exact hblank x.w5 hw5 h
  rcases List.mem_append.mp h with h | h
  · exact word_not_newline '\n' (hn.2 '\n' h) rfl
  rcases List.mem_cons.mp h with h | h
  · exact hblank x.w6 hw6 h
  rcases List.mem_cons.mp h with h | h
  · exact absurd h (by decide)
  rcases List.mem_append.mp h with h | h
  · have h5 := (hv '\n' h).2
    rw [isLineBoundary] at h5
    simp at h5
  rcases List.mem_cons.mp h with h | h
  · exact absurd h (by decide)
  · simp at h

/-- A valid Dialect-A line matches to exactly its name and value. -/
theorem reMatchDicom_render (x : String × Char × String)
    (hn : validName x.1) (hw : isBlank x.2.1) (hv : validValue x.2.2) :
    reMatchDicom (renderDicomLine x) = some (x.1, x.2.2) := by
  unfold reMatchDicom renderDicomLine
  exact reMatchNameValue_spec x.1.data x.2.1 x.2.2.data [] hn.1 hn.2
    (isSpaceChar_of_blank x.2.1 hw) (valueStop_of_validValue x.2.2 hv)

/-- A valid Dialect-B line matches to exactly its name and value. -/
theorem reMatchLx_render (x : LxLine)
    (hw1 : isBlank x.w1) (hw2 : isBlank x.w2) (hw3 : isBlank x.w3)
    (hw4 : isBlank x.w4) (hw5 : isBlank x.w5)
    (hn : validName x.name) (hw6 : isBlank x.w6) (hv : validValue x.value) :
    reMatchLx (renderLxLine x) = some (x.name, x.value) := by
  unfold renderLxLine
  exact reMatchLx_spec x.w1 x.w2 x.w3 x.w4 x.w5 x.name.data x.w6 x.value.data []
    (isSpaceChar_of_blank x.w1 hw1) (isSpaceChar_of_blank x.w2 hw2)
    (isSpaceChar_of_blank x.w3 hw3) (isSpaceChar_of_blank x.w4 hw4)
    (isSpaceChar_of_blank x.w5 hw5) hn.1 hn.2
    (isSpaceChar_of_blank x.w6 hw6) (valueStop_of_validValue x.value hv)

/-- C3 core: parsing a rendered Dialect-A blob of valid distinct-name
lines yields exactly the rendered pairs in order. -/
theorem str_to_dict_dicom_render (ts : List (String × Char × String))
    (hval : ∀ x ∈ ts, validName x.1 ∧ isBlank x.2.1 ∧ validValue x.2.2)
    (hnd : (ts.map (fun x => x.1)).Nodup) :
    str_to_dict_dicom (renderDicomBlob ts) = some (ts.map (fun x => (x.1, x.2.2))) := by
  by_cases hts : ts = []
  · subst hts; rfl
  · have hlines_ne : ts.map renderDicomLine ≠ [] := by
      simpa using hts
    have hnil : ∀ l ∈ ts.map renderDicomLine, l ≠ [] := by
      intro l hl
      rcases List.mem_map.mp hl with ⟨x, _, rfl⟩
      exact append_cons_ne_nil _ _ _
    have hnl : ∀ l ∈ ts.map renderDicomLine, '\n' ∉ l := by
      intro l hl
      rcases List.mem_map.mp hl with ⟨x, hx, rfl⟩
      obtain ⟨h1, h2, h3⟩ := hval x hx
      exact nl_not_mem_renderDicomLine x h1 h2 h3
    unfold str_to_dict_dicom renderDicomBlob
    rw [splitlines_joinNl _ hlines_ne hnil hnl, dict_build_go_eq]
    have hfa : List.Forall₂ (fun (l : String) (kv : String × String) =>
        reMatchDicom l.data = some kv)
        ((ts.map renderDicomLine).map String.mk) (ts.map (fun x => (x.1, x.2.2))) := by
      rw [List.map_map]
      exact forall₂_map_map _ _ _ ts (fun x hx => by
        obtain ⟨h1, h2, h3⟩ := hval x hx
        exact reMatchDicom_render x h1 h2 h3)
    rw [matchLines_of_forall₂ reMatchDicom _ _ hfa]
    dsimp only [Option.map]
    have hnd2 : ((ts.map (fun x => (x.1, x.2.2))).map (fun p => p.1)).Nodup := by
      rw [List.map_map]
      exact hnd
    rw [buildDict_fresh _ _ hnd2 (by simp), List.nil_append]

/-- C7 core: parsing a rendered Dialect-B blob of valid distinct-name
lines yields exactly the rendered pairs in order. -/
theorem str_to_dict_lx_render (xs : List LxLine)
    (hval : ∀ x ∈ xs, isBlank x.w1 ∧ isBlank x.w2 ∧ isBlank x.w3 ∧ isBlank x.w4 ∧
      isBlank x.w5 ∧ validName x.name ∧ isBlank x.w6 ∧ validValue x.value)
    (hnd : (xs.map (fun x => x.name)).Nodup) :
    str_to_dict_lx (renderLxBlob xs) = some (xs.map (fun x => (x.name, x.value))) := by
  by_cases hxs : xs = []
  · subst hxs; rfl
  · have hlines_ne : xs.map renderLxLine ≠ [] := by
      simpa using hxs
    have hnil : ∀ l ∈ xs.map renderLxLine, l ≠ [] := by
      intro l hl
      rcases List.mem_map.mp hl with ⟨x, _, rfl⟩
      exact List.cons_ne_nil _ _
    have hnl : ∀ l ∈ xs.map renderLxLine, '\n' ∉ l := by
      intro l hl
      rcases List.mem_map.mp hl with ⟨x, hx, rfl⟩
      obtain ⟨h1, h2, h3, h4, h5, h6, h7, h8⟩ := hval x hx
      exact nl_not_mem_renderLxLine x h1 h2 h3 h4 h5 h6 h7 h8
    unfold str_to_dict_lx renderLxBlob
    rw [splitlines_joinNl _ hlines_ne hnil hnl, dict_build_go_eq]
    have hfa : List.Forall₂ (fun (l : String) (kv : String × String) =>
        reMatchLx l.data = some kv)
        ((xs.map renderLxLine).map String.mk) (xs.map (fun x => (x.name, x.value))) := by
      rw [List.map_map]
      exact forall₂_map_map _ _ _ xs (fun x hx => by
        obtain ⟨h1, h2, h3, h4, h5, h6, h7, h8⟩ := hval x hx
        exact reMatchLx_render x h1 h2 h3 h4 h5 h6 h7 h8)
    rw [matchLines_of_forall₂ reMatchLx _ _ hfa]
    dsimp only [Option.map]
    have hnd2 : ((xs.map (fun x => (x.name, x.value))).map (fun p => p.1)).Nodup := by
      rw [List.map_map]
      exact hnd
    rw [buildDict_fresh _ _ hnd2 (by simp), List.nil_append]

/-- C5 helper: on a duplicate-free mapping, every item looks itself up. -/
theorem dictLookup_self (X : List (String × String))
    (h : (X.map (fun p => p.1)).Nodup) :
    ∀ kv ∈ X, dictLookup kv.1 X = some kv.2 := by
  intro kv hkv
  exact dictLookup_eq_some_of_nodup kv.1 kv.2 X h (by cases kv; exact hkv)

/-- C10 helper: on duplicate-free mappings, `diff_protocols` prints
nothing exactly when the two mappings hold the same key/value pairs. -/
theorem diff_protocols_eq_nil_iff (r t : List (String × String))
    (hr : (r.map (fun p => p.1)).Nodup) (ht : (t.map (fun p => p.1)).Nodup) :
    diff_protocols r t = [] ↔ ∀ p : String × String, p ∈ r ↔ p ∈ t := by
  rw [diff_protocols_eq_catMap, List.append_eq_nil, catMap_eq_nil_iff, catMap_eq_nil_iff]
  constructor
  · intro ⟨h1, h2⟩ p
    obtain ⟨p1, p2⟩ := p
    constructor
    · intro hpr
      have hl := (refRecLines_eq_nil_iff t (p1, p2)).mp (h1 (p1, p2) hpr)
      exact dictLookup_mem p1 p2 t hl
    · intro hpt
      have hl := (addRecLines_eq_nil_iff r (p1, p2)).mp (h2 (p1, p2) hpt)
      cases hw : dictLookup p1 r with
      | none => exact absurd hw hl
      | some w =>
        have hwr : (p1, w) ∈ r := dictLookup_mem p1 w r hw
        have hwt : dictLookup p1 t = some w :=
          (refRecLines_eq_nil_iff t (p1, w)).mp (h1 (p1, w) hwr)
        have hpt2 : dictLookup p1 t = some p2 :=
          dictLookup_eq_some_of_nodup p1 p2 t ht hpt
        rw [hpt2] at hwt
        have hv : w = p2 := (Option.some.inj hwt).symm
        exact hv ▸ hwr
  · intro h
    constructor
    · intro kv hkv
      rw [refRecLines_eq_nil_iff]
      exact dictLookup_eq_some_of_nodup kv.1 kv.2 t ht
        (by have := (h kv).mp (by cases kv; exact hkv); cases kv; exact this)
    · intro kv hkv
      rw [addRecLines_eq_nil_iff]
      have hkr : kv ∈ r := (h kv).mpr hkv
      rw [dictLookup_eq_some_of_nodup kv.1 kv.2 r hr (by cases kv; exact hkr)]
      simp

/-- C1 helper: each first-pass printing step renders the spec's
reference-driven record for that item. -/
theorem refRecLines_eq_render (t : List (String × String)) (kv : String × String) :
    refRecLines t kv = (refRecSpec t kv).elim [] renderRec := by
  unfold refRecLines refRecSpec
  cases dictLookup kv.1 t with
  | none => rfl
  | some w => by_cases h : kv.2 = w <;> simp [h, renderRec]

/-- C1 helper: each second-pass printing step renders the spec's added
record for that item. -/
theorem addRecLines_eq_render (r : List (String × String)) (kv : String × String) :
    addRecLines r kv = (addRecSpec r kv).elim [] renderRec := by
  unfold addRecLines addRecSpec
  cases dictLookup kv.1 r with
  | none => rfl
  | some w => rfl

theorem catMap_render_filterMap (f : α → Option DiffRec) (l : List α) :
    catMap renderRec (l.filterMap f) = catMap (fun a => (f a).elim [] renderRec) l := by
  induction l with
  | nil => rfl
  | cons a l ih =>
    rw [List.filterMap_cons, catMap_cons]
    cases h : f a with
    | none => simpa [h] using ih
    | some rec => rw [catMap_cons, ih]; simp [h]

/-- C1 helper: `diff_protocols` prints exactly the rendering of the
spec-described record sequence: all reference-driven records in reference
insertion order, then all added records in test insertion order. -/
theorem diff_protocols_eq_render_spec (r t : List (String × String)) :
    diff_protocols r t = catMap renderRec (diffRecordsSpec r t) := by
  unfold diffRecordsSpec
  rw [diff_protocols_eq_catMap]
  have hcat : ∀ (l1 l2 : List DiffRec),
      catMap renderRec (l1 ++ l2) = catMap renderRec l1 ++ catMap renderRec l2 := by
    intro l1 l2
    induction l1 with
    | nil => rfl
    | cons a l ih => rw [List.cons_append, catMap_cons, catMap_cons, ih, List.append_assoc]
  rw [hcat, catMap_render_filterMap, catMap_render_filterMap]
  congr 1
  · exact congrArg (fun f => catMap f r) (funext fun kv => refRecLines_eq_render t kv)
  · exact congrArg (fun f => catMap f t) (funext fun kv => addRecLines_eq_render r kv)

/-- C5 core: `diff_protocols(X, X)` prints nothing, for every mapping `X`
(mapping keys are unique, as Python dict keys are). -/
theorem diff_protocols_self_eq_nil (X : List (String × String))
    (h : (X.map (fun p => p.1)).Nodup) : diff_protocols X X = [] := by
  rw [diff_protocols_eq_catMap, List.append_eq_nil]
  constructor
  · rw [catMap_eq_nil_iff]
    intro kv hkv
    rw [refRecLines_eq_nil_iff]
    exact dictLookup_self X h kv hkv
  · rw [catMap_eq_nil_iff]
    intro kv hkv
    rw [addRecLines_eq_nil_iff]
    rw [dictLookup_self X h kv hkv]
    simp

/-!
## Claim theorems
-/

/-- C1 (counterexample): at the claim's own example, the changed record
for B carries the reference value `2` (the reference mapping binds B to
`2`), not `1` as the claim's parenthetical `(1 to 22)` states: the line
printed for the reference side of B is `< B 2`, and no `< B 1` line is
printed. -/
theorem claim_c1_counterexample :
    diff_protocols [("A", "1"), ("B", "2"), ("C", "3")]
        [("A", "1"), ("B", "22"), ("D", "4")] =
      ["< B 2", "> B 22", "---", "< C 3", ">", "---", "<", "> D 4", "---"] ∧
    ("< B 1" : String) ∉ diff_protocols [("A", "1"), ("B", "2"), ("C", "3")]
        [("A", "1"), ("B", "22"), ("D", "4")] := by
  decide

/-- C1 (amended): for every pair of mappings, `diff_protocols` prints
exactly the rendering of this record sequence: first, for each key of the
reference mapping in insertion order, a changed record (key, ref value,
test value) when the key is present in test with a different value, a
removed record when absent, and nothing when present and equal; then, for
each key of the test mapping in insertion order absent from reference, an
added record.  At the example, the records are: changed B (2 to 22),
removed C, added D, and none for A. -/
theorem claim_c1_diff_order :
    (∀ r t : List (String × String),
      diff_protocols r t = catMap renderRec (diffRecordsSpec r t)) ∧
    diffRecordsSpec [("A", "1"), ("B", "2"), ("C", "3")]
        [("A", "1"), ("B", "22"), ("D", "4")] =
      [DiffRec.changed "B" "2" "22", DiffRec.removed "C" "3", DiffRec.added "D" "4"] :=
  ⟨diff_protocols_eq_render_spec, by decide⟩

/-- C2 (counterexample): on a dataset without element (0025,101b) the
`json` subcommand does exit with status 1 and the specific stderr message,
but the JSON output file IS created (empty): `open(args.j, "w")` runs
before `extract_protocol`, so the claim's "no JSON output file is written"
is false. -/
theorem claim_c2_counterexample :
    dsLookup [((0x8, 0x20), [1, 2, 3])] (0x25, 0x101b) = none ∧
    json_subcommand (fun _ => none) [((0x8, 0x20), [1, 2, 3])] =
      { exitCode := 1, stderrLine := some missingElementMsg,
        outFileCreated := true, outFileContent := "" } := by
  decide

/-- C2 (amended): when element (0025,101b) is absent, `extract_protocol`
writes the message identifying the missing tag to stderr and exits with
status 1, and the `json` subcommand therefore terminates with exit status
1 and that stderr line; the JSON output file is created (truncated) before
extraction runs and is left empty - no JSON content is written to it. -/
theorem claim_c2_missing_tag (dd : List Nat → Option String)
    (ds : List ((Nat × Nat) × List Nat))
    (h : dsLookup ds (0x25, 0x101b) = none) :
    extract_protocol dd ds = ExtractResult.exited 1 missingElementMsg ∧
    json_subcommand dd ds =
      { exitCode := 1, stderrLine := some missingElementMsg,
        outFileCreated := true, outFileContent := "" } := by
  have he : extract_protocol dd ds = ExtractResult.exited 1 missingElementMsg := by
    unfold extract_protocol
    rw [h]
  refine ⟨he, ?_⟩
  unfold json_subcommand
  rw [he]

/-- Witness for C2 at a concrete dataset without the element. -/
theorem claim_c2_witness :
    extract_protocol (fun _ => none) [] = ExtractResult.exited 1 missingElementMsg ∧
    json_subcommand (fun _ => none) [] =
      { exitCode := 1, stderrLine := some missingElementMsg,
        outFileCreated := true, outFileContent := "" } :=
  claim_c2_missing_tag (fun _ => none) [] rfl

/-- C3: for every Dialect-A blob of `NAME "VALUE"` lines (nonempty
word-character names, one whitespace separator, quote-free values) with
all names distinct, `str_to_dict_dicom` yields exactly one entry per line,
keys the literal names, values the quoted strings with quotes stripped, in
order of occurrence. -/
theorem claim_c3_dialectA_parse (ts : List (String × Char × String))
    (hval : ∀ x ∈ ts, validName x.1 ∧ isBlank x.2.1 ∧ validValue x.2.2)
    (hnd : (ts.map (fun x => x.1)).Nodup) :
    str_to_dict_dicom (renderDicomBlob ts) = some (ts.map (fun x => (x.1, x.2.2))) :=
  str_to_dict_dicom_render ts hval hnd

/-- Witness for C3 at a concrete two-line blob. -/
theorem claim_c3_witness :
    str_to_dict_dicom (renderDicomBlob [("ABC", ' ', "123"), ("DEF", ' ', "456")]) =
      some [("ABC", "123"), ("DEF", "456")] ∧
    renderDicomBlob [("ABC", ' ', "123"), ("DEF", ' ', "456")] = "ABC \"123\"\nDEF \"456\"" :=
  ⟨claim_c3_dialectA_parse [("ABC", ' ', "123"), ("DEF", ' ', "456")] (by decide) (by decide),
    by decide⟩

/-- C4: for every 4-byte prefix `h` and every compressed encoding `c` that
the external decompress-and-decode collaborator maps to the text `t`,
decoding the payload `h ++ c` discards the first 4 bytes without
inspecting them and yields exactly `t`, and extraction on a dataset
holding that payload under (0025,101b) returns the parse of `t`, whatever
the 4 header bytes contain. -/
theorem claim_c4_header_ignored (dd : List Nat → Option String) (h c : List Nat)
    (t : String) (ds : List ((Nat × Nat) × List Nat))
    (hlen : h.length = 4) (hdec : dd c = some t)
    (hds : dsLookup ds (0x25, 0x101b) = some (h ++ c)) :
    decode_payload dd (h ++ c) = some t ∧
    extract_protocol dd ds =
      (match str_to_dict_dicom t with
       | none => ExtractResult.crashed
       | some d => ExtractResult.ok d) := by
  have hdrop : (h ++ c).drop 4 = c := by
    rw [← hlen]
    exact List.drop_left h c
  have hpay : decode_payload dd (h ++ c) = some t := by
    rw [decode_payload, hdrop, hdec]
  refine ⟨hpay, ?_⟩
  unfold extract_protocol
  rw [hds]
  dsimp only
  rw [hpay]

/-- Witness for C4 at a concrete header, payload and collaborator. -/
theorem claim_c4_witness :
    decode_payload (fun bs => if bs = [7, 8] then some "A \"1\"" else none)
        ([255, 0, 17, 3] ++ [7, 8]) = some "A \"1\"" ∧
    extract_protocol (fun bs => if bs = [7, 8] then some "A \"1\"" else none)
        [((0x25, 0x101b), [255, 0, 17, 3] ++ [7, 8])] =
      (match str_to_dict_dicom "A \"1\"" with
       | none => ExtractResult.crashed
       | some d => ExtractResult.ok d) :=
  claim_c4_header_ignored (fun bs => if bs = [7, 8] then some "A \"1\"" else none)
    [255, 0, 17, 3] [7, 8] "A \"1\"" [((0x25, 0x101b), [255, 0, 17, 3] ++ [7, 8])]
    (by decide) (by decide) (by decide)

/-- C5: `diff_protocols(X, X)` produces empty output for every mapping
`X` (mapping keys are unique, as Python dict keys always are): no record
is printed for a key present in both mappings with equal values. -/
theorem claim_c5_diff_self (X : List (String × String))
    (h : (X.map (fun p => p.1)).Nodup) : diff_protocols X X = [] :=
  diff_protocols_self_eq_nil X h

/-- Witness for C5 at a concrete mapping. -/
theorem claim_c5_witness : diff_protocols [("A", "1"), ("B", "2")] [("A", "1"), ("B", "2")] = [] :=
  claim_c5_diff_self [("A", "1"), ("B", "2")] (by decide)

/-- C6: in both parsers, when a parameter name occurs on several matched
lines, the built mapping binds the name to the value of its last
occurrence, while the keys stand in first-occurrence order. -/
theorem claim_c6_last_write_wins (sA sB : String)
    (dA dB psA psB : List (String × String))
    (hA1 : matchLines reMatchDicom (splitlines sA) = some psA)
    (hA2 : str_to_dict_dicom sA = some dA)
    (hB1 : matchLines reMatchLx (splitlines sB) = some psB)
    (hB2 : str_to_dict_lx sB = some dB) :
    (dA.map (fun p => p.1) = firstOccKeys psA ∧
      ∀ k, dictLookup k dA = lastValue k psA) ∧
    (dB.map (fun p => p.1) = firstOccKeys psB ∧
      ∀ k, dictLookup k dB = lastValue k psB) := by
  have hfilter : ∀ l : List String,
      l.filter (fun k => decide (k ∉ ([] : List (String × String)).map (fun p => p.1))) = l := by
    intro l
    induction l with
    | nil => rfl
    | cons a l ih => simp [List.filter_cons, ih]
  have hbuild : ∀ (f : List Char → Option (String × String)) (s : String)
      (d ps : List (String × String)),
      matchLines f (splitlines s) = some ps → dict_build_go f [] (splitlines s) = some d →
      d.map (fun p => p.1) = firstOccKeys ps ∧ ∀ k, dictLookup k d = lastValue k ps := by
    intro f s d ps hm hp
    rw [dict_build_go_eq, hm] at hp
    dsimp only [Option.map] at hp
    have hd : d = buildDict [] ps := (Option.some.inj hp).symm
    subst hd
    constructor
    · rw [buildDict_keys ps []]
      simp only [List.map_nil, List.nil_append]
      exact hfilter (firstOccKeys ps)
    · intro k
      rw [dictLookup_buildDict k ps []]
      cases lastValue k ps <;> rfl
  exact ⟨hbuild reMatchDicom sA dA psA hA1 hA2, hbuild reMatchLx sB dB psB hB1 hB2⟩

/-- Witness for C6 at concrete texts in which key K occurs twice. -/
theorem claim_c6_witness :
    ([("K", "2"), ("L", "3")].map (fun p => p.1) =
      firstOccKeys [("K", "1"), ("K", "2"), ("L", "3")]) ∧
    dictLookup "K" [("K", "2"), ("L", "3")] =
      lastValue "K" [("K", "1"), ("K", "2"), ("L", "3")] ∧
    dictLookup "K" [("K", "2"), ("L", "3")] = some "2" := by
  have h := claim_c6_last_write_wins "K \"1\"\nK \"2\"\nL \"3\""
    "    set K \"1\"\n    set K \"2\"\n    set L \"3\""
    [("K", "2"), ("L", "3")] [("K", "2"), ("L", "3")]
    [("K", "1"), ("K", "2"), ("L", "3")] [("K", "1"), ("K", "2"), ("L", "3")]
    (by decide) (by decide) (by decide) (by decide)
  exact ⟨h.1.1, h.1.2 "K", by decide⟩

/-- C7: for every Dialect-B blob of lines made of four leading whitespace
characters, the literal token `set`, whitespace, a word-character name,
whitespace and a double-quoted value, `str_to_dict_lx` yields the mapping
of names to unquoted values. -/
theorem claim_c7_dialectB_parse (xs : List LxLine)
    (hval : ∀ x ∈ xs, isBlank x.w1 ∧ isBlank x.w2 ∧ isBlank x.w3 ∧ isBlank x.w4 ∧
      isBlank x.w5 ∧ validName x.name ∧ isBlank x.w6 ∧ validValue x.value)
    (hnd : (xs.map (fun x => x.name)).Nodup) :
    str_to_dict_lx (renderLxBlob xs) = some (xs.map (fun x => (x.name, x.value))) :=
  str_to_dict_lx_render xs hval hnd

/-- Witness for C7 at the claim's own example blob. -/
theorem claim_c7_witness :
    str_to_dict_lx (renderLxBlob
        [⟨' ', ' ', ' ', ' ', ' ', "ABC", ' ', "123"⟩,
         ⟨' ', ' ', ' ', ' ', ' ', "DEF", ' ', "456"⟩]) =
      some [("ABC", "123"), ("DEF", "456")] ∧
    renderLxBlob
        [⟨' ', ' ', ' ', ' ', ' ', "ABC", ' ', "123"⟩,
         ⟨' ', ' ', ' ', ' ', ' ', "DEF", ' ', "456"⟩] =
      "    set ABC \"123\"\n    set DEF \"456\"" :=
  ⟨claim_c7_dialectB_parse
      [⟨' ', ' ', ' ', ' ', ' ', "ABC", ' ', "123"⟩,
       ⟨' ', ' ', ' ', ' ', ' ', "DEF", ' ', "456"⟩] (by decide) (by decide),
    by decide⟩

/-- C8 (counterexample): on the line `A "x\"y"` the parser stops the value
at the FIRST following double quote even though it is preceded by a
backslash: the parsed value is the two characters `x\`, not `x\"y` as the
claim's "first unescaped closing quote" reading requires. -/
theorem claim_c8_counterexample :
    str_to_dict_dicom (String.mk ['A', ' ', '"', 'x', '\\', '"', 'y', '"']) =
      some [("A", String.mk ['x', '\\'])] ∧
    String.mk ['x', '\\'] ≠ String.mk ['x', '\\', '"', 'y'] := by
  decide

/-- C8 (amended): for every Dialect-A line, the parsed value is the
characters between the opening double quote and the first subsequent
double quote, matched non-greedily; escapes are not recognized, so a value
may contain any characters except a double quote, and whatever follows
that first closing quote is ignored. -/
theorem claim_c8_value_first_quote (n : List Char) (w : Char) (v rest : List Char)
    (hn : n ≠ []) (hnw : ∀ c ∈ n, isWordChar c = true)
    (hw : isSpaceChar w = true)
    (hv : ∀ c ∈ v, isValueStop c = false) :
    reMatchDicom (n ++ (w :: '"' :: (v ++ ('"' :: rest)))) =
      some (String.mk n, String.mk v) :=
  reMatchNameValue_spec n w v rest hn hnw hw hv

/-- Witness for C8: the value of `A "ab"cd"` is `ab`, cut at the first
closing quote with the trailing `cd"` ignored. -/
theorem claim_c8_witness :
    reMatchDicom (['A'] ++ (' ' :: '"' :: (['a', 'b'] ++ ('"' :: ['c', 'd', '"'])))) =
      some (String.mk ['A'], String.mk ['a', 'b']) ∧
    (['A'] ++ (' ' :: '"' :: (['a', 'b'] ++ ('"' :: ['c', 'd', '"'])))) =
      String.data "A \"ab\"cd\"" :=
  ⟨claim_c8_value_first_quote ['A'] ' ' ['a', 'b'] ['c', 'd', '"']
      (by decide) (by decide) (by decide) (by decide),
    by decide⟩

/-- C9: a text containing any line that does not match the dialect
pattern (an empty line included) makes the parser fail - `none`, the
model of the unhandled `AttributeError` on the `None` match - rather than
skip the line or return a partial mapping. -/
theorem claim_c9_bad_line_fails (s1 s2 : String)
    (h1 : ∃ l ∈ splitlines s1, reMatchDicom l.data = none)
    (h2 : ∃ l ∈ splitlines s2, reMatchLx l.data = none) :
    str_to_dict_dicom s1 = none ∧ str_to_dict_lx s2 = none :=
  ⟨dict_build_go_none reMatchDicom (splitlines s1) [] h1,
    dict_build_go_none reMatchLx (splitlines s2) [] h2⟩

/-- Witness for C9 at texts with an empty middle line. -/
theorem claim_c9_witness :
    str_to_dict_dicom "A \"1\"\n\nB \"2\"" = none ∧
    str_to_dict_lx "    set A \"1\"\n\n    set B \"2\"" = none :=
  claim_c9_bad_line_fails "A \"1\"\n\nB \"2\"" "    set A \"1\"\n\n    set B \"2\""
    (by decide) (by decide)

/-- C10: on duplicate-free mappings, `diff_protocols` prints nothing
exactly when the two mappings are equal as key/value sets; equivalently,
whenever some key is present in one and absent from the other or bound to
different values, at least one record is printed. -/
theorem claim_c10_empty_iff_equal (r t : List (String × String))
    (hr : (r.map (fun p => p.1)).Nodup) (ht : (t.map (fun p => p.1)).Nodup) :
    diff_protocols r t = [] ↔ ∀ p : String × String, p ∈ r ↔ p ∈ t :=
  diff_protocols_eq_nil_iff r t hr ht

/-- Witness for C10: two mappings equal as sets but differently ordered
diff to empty output. -/
theorem claim_c10_witness :
    diff_protocols [("A", "1"), ("B", "2")] [("B", "2"), ("A", "1")] = [] :=
  (claim_c10_empty_iff_equal [("A", "1"), ("B", "2")] [("B", "2"), ("A", "1")]
      (by decide) (by decide)).mpr
    (by
      intro p
      constructor <;> intro hp <;>
        rcases List.mem_cons.mp hp with h | h <;>
        simp_all [List.mem_cons])
